import Mathlib

/-!
Verification of the `captcha` image-generation library against its
natural-language specification.

The Go source is shallowly embedded:
* 8-bit colour channels become `Nat` with explicit `% 256` where the Go
  `uint8` arithmetic wraps;
* `*image.RGBA` canvases become an `Img` structure holding dimensions and a
  pixel function (every canvas in this repository is created with
  `image.Rect(0, 0, w, h)`, so bounds always start at the origin);
* the process-wide random source (`math/rand/v2`) is modelled by explicit
  oracle arguments: each call site of `rand.IntN n` consumes one supplied
  value, assumed `< n` exactly as `rand.IntN` guarantees, and each call of
  `rand.Float64` consumes a supplied value in `[0,1)`;
* Go `float64` arithmetic is idealised as exact arithmetic: `ℚ` where only
  field operations occur, `ℝ` where `math.Sin` / `math.Cos` are involved;
* external collaborators (font engine, `golang.org/x/image/draw` resamplers,
  `os.ReadFile` / `opentype.Parse`) are abstracted as oracle parameters.
-/

namespace CaptchaGo

/-- An 8-bit RGBA colour value (Go `color.RGBA`); channels are kept `< 256`
by construction at every producer. -/
structure RGBA where
  r : Nat
  g : Nat
  b : Nat
  a : Nat
deriving DecidableEq

/-- The zero value of `color.RGBA`: a fully transparent pixel, which is what
`image.NewRGBA` fills a fresh canvas with. -/
def transparent : RGBA := ⟨0, 0, 0, 0⟩

/-- A canvas (`*image.RGBA` created by `image.NewRGBA(image.Rect(0,0,w,h))`):
dimensions plus a pixel function.  Coordinates outside `[0,w) × [0,h)` are
irrelevant (Go's `RGBAAt` returns the zero colour there and `Set` is a
no-op there). -/
structure Img where
  w : Nat
  h : Nat
  pix : Nat → Nat → RGBA

/-- Go `img.Set(x, y, c)`: writes the pixel when the coordinate is inside
the canvas rectangle and silently does nothing otherwise. -/
def imgSet (img : Img) (x y : Int) (c : RGBA) : Img :=
  if 0 ≤ x ∧ x < img.w ∧ 0 ≤ y ∧ y < img.h then
    { img with pix := fun i j => if i = x.toNat ∧ j = y.toNat then c else img.pix i j }
  else img

/-- Go `image.Rectangle`: the two corner points `Min` and `Max`. -/
structure Rectangle where
  minX : Int
  minY : Int
  maxX : Int
  maxY : Int
deriving DecidableEq

/-- Go `image.Rect(x0, y0, x1, y1)`: canonicalises by swapping the two
x-coordinates (resp. y-coordinates) when given in decreasing order. -/
def rect (x0 y0 x1 y1 : Int) : Rectangle :=
  let p := if x0 > x1 then (x1, x0) else (x0, x1)
  let q := if y0 > y1 then (y1, y0) else (y0, y1)
  ⟨p.1, q.1, p.2, q.2⟩

/-- Go `r.Dx()`. -/
def Rectangle.dx (r : Rectangle) : Int := r.maxX - r.minX

/-- Go `r.Dy()`. -/
def Rectangle.dy (r : Rectangle) : Int := r.maxY - r.minY

/-- Go `image.Point.In(r)`: membership in a rectangle is half-open,
`Min.X ≤ x < Max.X` and `Min.Y ≤ y < Max.Y`. -/
def Rectangle.contains (r : Rectangle) (x y : Int) : Prop :=
  r.minX ≤ x ∧ x < r.maxX ∧ r.minY ≤ y ∧ y < r.maxY

instance (r : Rectangle) (x y : Int) : Decidable (r.contains x y) := by
  unfold Rectangle.contains; infer_instance

/-- The `Captcha` configuration struct (`captcha.go` lines 20–83).  Go `int`
fields become `Int`, Go `float64` fields become `ℚ` (exact model of the
finitely many float values involved); the font face handle is external and
omitted. -/
structure Captcha where
  width : Int
  height : Int
  charSet : String
  minLength : Int
  maxLength : Int
  fontPath : String
  fontSize : ℚ
  foreground : RGBA
  background : RGBA
  minSpacing : ℚ
  maxSpacing : ℚ
  minRotation : ℚ
  maxRotation : ℚ
  minScale : ℚ
  maxScale : ℚ
  minDistortion : ℚ
  maxDistortion : ℚ
  minLines : Int
  maxLines : Int
  noiseLevel : ℚ
deriving DecidableEq

/-- The parameter-validation `switch` of `New` (`captcha.go` lines 113–147):
the first matching case determines the error; `none` means the validation
passed. -/
def validateErr (c : Captcha) : Option String :=
  if c.width ≤ 0 ∨ c.height ≤ 0 then
    some ("width and height must be greater than 0")
  else if c.charSet = "" then
    some ("char set is required")
  else if c.fontPath = "" then
    some ("font path is required")
  else if c.fontSize ≤ 0 then
    some ("font size must be greater than 0")
  else if c.minLength < 0 ∨ c.maxLength < 0 ∨ c.minLength > c.maxLength then
    some ("min length must be greater than 0 and max length must be greater than min length")
  else if c.minSpacing < 0 ∨ c.maxSpacing < 0 ∨ c.minSpacing > c.maxSpacing then
    some ("min spacing must be greater than 0 and max spacing must be greater than min spacing")
  else if c.minRotation < -180 ∨ c.maxRotation > 180 ∨ c.minRotation > c.maxRotation then
    some ("min rotation must be between -180 and 180 and max rotation must be greater than min rotation")
  else if c.minScale < 0 ∨ c.maxScale < 0 ∨ c.minScale > c.maxScale then
    some ("min scale must be greater than 0 and max scale must be greater than min scale")
  else if c.minDistortion < 0 ∨ c.maxDistortion < 0 ∨ c.minDistortion > c.maxDistortion then
    some ("min distortionmust be greater than 0 and max distortion must be greater than min distortion")
  else if c.minLines < 0 ∨ c.maxLines < 0 ∨ c.minLines > c.maxLines then
    some ("min lines must be greater than 0 and max lines must be greater than min lines")
  else if c.noiseLevel < 0 ∨ c.noiseLevel > 1 then
    some ("noise level must be between 0 and 1")
  else none

/-- Model of `New` after the option loop (`captcha.go` lines 113–181): on a validation
error no `Captcha` is returned; otherwise the font resource is read and
parsed — that step is external (`os.ReadFile`, `opentype.Parse`,
`opentype.NewFace`) and is abstracted as the `loadFont` oracle. -/
def NewGo (loadFont : String → ℚ → Except String Unit) (c : Captcha) :
    Except String Captcha :=
  match validateErr c with
  | some e => Except.error e
  | none =>
    match loadFont c.fontPath c.fontSize with
    | Except.error e => Except.error e
    | Except.ok _ => Except.ok c

/-- The invalid-parameter condition exactly as claim C9 words it: at least
one of the listed conditions holds. -/
def invalidParamsClaim (c : Captcha) : Prop :=
  (c.width ≤ 0 ∨ c.height ≤ 0) ∨
  c.charSet = "" ∨
  c.fontPath = "" ∨
  c.fontSize ≤ 0 ∨
  (c.minLength > c.maxLength ∨ c.minLength < 0 ∨ c.maxLength < 0) ∨
  (c.minSpacing > c.maxSpacing ∨ c.minSpacing < 0 ∨ c.maxSpacing < 0) ∨
  (c.minScale > c.maxScale ∨ c.minScale < 0 ∨ c.maxScale < 0) ∨
  (c.minDistortion > c.maxDistortion ∨ c.minDistortion < 0 ∨ c.maxDistortion < 0) ∨
  (c.minLines > c.maxLines ∨ c.minLines < 0 ∨ c.maxLines < 0) ∨
  (c.minRotation < -180 ∨ c.maxRotation > 180 ∨ c.minRotation > c.maxRotation) ∨
  (c.noiseLevel < 0 ∨ c.noiseLevel > 1)

/-- Receiver mutation performed by `drawNoise` (`captcha.go` lines 408–415):
it returns early when `noiseLevel == 0`, defensively clamps `noiseLevel`
to `1` when it exceeds `1`, and otherwise leaves the receiver alone.  This
is the configuration-state effect of `drawNoise`; the pixel work touches
only the fresh destination canvas. -/
def drawNoiseConfig (c : Captcha) : Captcha :=
  if c.noiseLevel = 0 then c
  else if c.noiseLevel > 1 then { c with noiseLevel := 1 } else c

/-- Receiver state after one `Generate` call (`captcha.go` lines 184–205).
Scanning every function reachable from `Generate` (`randomString`,
`drawString`, `drawChar`, `scaleChar`, `distortChar`, `rotateChar`,
`drawNoise`, `drawLines`, `drawStraightLine`, `drawCurveLine`), the single
assignment to a receiver field is `c.noiseLevel = 1` inside `drawNoise`
(line 414); every other access to the receiver is a read.  So the receiver
after `Generate` is exactly `drawNoiseConfig` of the receiver before. -/
def generateConfig (c : Captcha) : Captcha := drawNoiseConfig c

/-- A concrete configuration that passes validation (used by witnesses). -/
def cValid : Captcha where
  width := 120
  height := 50
  charSet := "ABC123"
  minLength := 4
  maxLength := 4
  fontPath := "font.ttf"
  fontSize := 36
  foreground := ⟨0, 0, 0, 255⟩
  background := ⟨255, 255, 255, 255⟩
  minSpacing := 1
  maxSpacing := 1
  minRotation := 0
  maxRotation := 0
  minScale := 1
  maxScale := 1
  minDistortion := 0
  maxDistortion := 0
  minLines := 3
  maxLines := 7
  noiseLevel := 1



/-- Helper `randomString(length, set)` (`part_000` lines 9–17): builds a byte
slice where entry `i` is `set[rand.IntN(len(set))]`; `draws i` supplies the
value of the `i`-th `rand.IntN(len(set))` call.  The repository's character
sets are ASCII, so Go's byte indexing coincides with character indexing and
the set is modelled as a `List Char`; the `getD` default is never reached
under the `rand.IntN` bound `draws i < set.length`. -/
def randomString (length : Nat) (set : List Char) (draws : Nat → Nat) : List Char :=
  (List.range length).map fun i => set.getD (draws i) 'A'

/-- Length selection of the `randomString` method (`captcha.go` lines
208–218): the fixed value when the bounds agree, otherwise
`rand.IntN(maxLength-minLength+1) + minLength`, with `lenDraw` supplying the
`rand.IntN` value.  Validated configurations have non-negative length
bounds, so they are modelled as `Nat`. -/
def randomStringLength (minLength maxLength lenDraw : Nat) : Nat :=
  if minLength = maxLength then minLength else lenDraw + minLength

/-- The `randomString` method (`captcha.go` lines 208–218): picks the length
and defers to the helper; `Generate` (line 185) returns this string as the
code. -/
def captchaRandomString (minLength maxLength : Nat) (set : List Char)
    (lenDraw : Nat) (draws : Nat → Nat) : List Char :=
  randomString (randomStringLength minLength maxLength lenDraw) set draws

/-- Line-count selection of `drawLines` (`captcha.go` lines 434–445): the
fixed value when the bounds agree, otherwise
`rand.IntN(maxLines-minLines) + minLines` (note: no `+1`), with `cntDraw`
supplying the `rand.IntN` value.  Validated configurations have
non-negative line bounds, so they are modelled as `Nat`. -/
def drawLinesLineCnt (minLines maxLines cntDraw : Nat) : Nat :=
  if minLines = maxLines then minLines else cntDraw + minLines

/-- Model of `clamp(v, min, max)` (`part_000` lines 68–76), at type `uint8` (modelled
as `Nat` holding values `< 256`). -/
def clamp (v mn mx : Nat) : Nat :=
  if v < mn then mn else if v > mx then mx else v

/-- Go `uint8(i)` conversion of a (possibly negative) integer: the low byte,
i.e. the value modulo 256. -/
def uint8OfInt (i : Int) : Nat := (i % 256).toNat

/-- Model of `base.RGBA()` for a `color.RGBA` base (Go `image/color`): each 8-bit
channel `v` is expanded to the 16-bit value `v | v<<8 = v * 0x101`. -/
def rgba16 (c : RGBA) : Nat × Nat × Nat × Nat :=
  (c.r * 257, c.g * 257, c.b * 257, c.a * 257)

/-- Model of `randomNearColor(base)` (`part_000` lines 46–55): shifts each 16-bit
channel right by 8, converts to `uint8`, adds `uint8(rand.IntN(50)-25)` in
wrapping `uint8` arithmetic, and applies `clamp(·, 0, 255)`; `rd`, `gd`,
`bd` supply the three `rand.IntN 50` values; the alpha channel is
`uint8(a >> 8)`. -/
def randomNearColor (base : RGBA) (rd gd bd : Nat) : RGBA :=
  let q := rgba16 base
  let rOffset : Int := (rd : Int) - 25
  let gOffset : Int := (gd : Int) - 25
  let bOffset : Int := (bd : Int) - 25
  { r := clamp ((q.1 / 256 % 256 + uint8OfInt rOffset) % 256) 0 255
    g := clamp ((q.2.1 / 256 % 256 + uint8OfInt gOffset) % 256) 0 255
    b := clamp ((q.2.2.1 / 256 % 256 + uint8OfInt bOffset) % 256) 0 255
    a := q.2.2.2 / 256 % 256 }

/-- The pixel scan order of `pixelBounds` (`part_000` lines 24–40): `y` in
the outer loop, `x` in the inner loop, over the canvas bounds (origin-based
for every canvas in this repository). -/
def scanCoords (w h : Nat) : List (Nat × Nat) :=
  (List.range h).flatMap fun y => (List.range w).map fun x => (x, y)

/-- One iteration of the `pixelBounds` scan (`part_000` lines 26–39): when
the pixel's alpha is positive, each of the four running extremes
`(minX, minY, maxX, maxY)` is tightened by its own comparison. -/
def pbStep (img : Img) (st : Nat × Nat × Nat × Nat) (p : Nat × Nat) :
    Nat × Nat × Nat × Nat :=
  if 0 < (img.pix p.1 p.2).a then
    (min st.1 p.1, min st.2.1 p.2, max st.2.2.1 p.1, max st.2.2.2 p.2)
  else st

/-- Model of `pixelBounds(src)` (`part_000` lines 19–44): the running extremes start
at `(bounds.Max.X, bounds.Max.Y, bounds.Min.X, bounds.Min.Y) = (w, h, 0, 0)`
and the result is built with `image.Rect`, which canonicalises by
swapping. -/
def pixelBounds (img : Img) : Rectangle :=
  let st := (scanCoords img.w img.h).foldl (pbStep img) (img.w, img.h, 0, 0)
  rect st.1 st.2.1 st.2.2.1 st.2.2.2

/-- A pixel that the `pixelBounds` scan treats as visible: in range and with
non-zero alpha. -/
def OpaqueAt (img : Img) (x y : Nat) : Prop :=
  x < img.w ∧ y < img.h ∧ 0 < (img.pix x y).a


instance (img : Img) (x y : Nat) : Decidable (OpaqueAt img x y) := by
  unfold OpaqueAt; infer_instance

/-- The scan coordinates that survive the alpha test of `pixelBounds`. -/
def opaqueCoords (img : Img) (l : List (Nat × Nat)) : List (Nat × Nat) :=
  l.filter fun p => 0 < (img.pix p.1 p.2).a

/-- A 2×2 canvas with every pixel fully transparent. -/
def transparentImg2 : Img := ⟨2, 2, fun _ _ => transparent⟩

/-- A 2×2 canvas whose only non-transparent pixel is at `(1, 1)`. -/
def onePixImg2 : Img :=
  ⟨2, 2, fun x y => if x = 1 ∧ y = 1 then ⟨0, 0, 0, 255⟩ else transparent⟩


/-- Model of `abs(x)` (`part_000` lines 61–66). -/
def goAbs (x : Int) : Int := if x < 0 then -x else x

/-- The unbounded Bresenham loop of `drawStraightLine` (`captcha.go` lines
486–502) as a fuel-indexed recursion returning the list of plotted points
in order; `none` means the fuel ran out before the loop hit its exit
condition `x1 == x2 && y1 == y2`.  Each iteration plots the current point,
exits if it is the end point, computes `err2 = 2*err` once and then moves
`x` (when `err2 > -dy`) and/or `y` (when `err2 < dx`) with the matching
error updates. -/
def bresLoop (dx dy sx sy x2 y2 : Int) : Nat → Int → Int → Int → Option (List (Int × Int))
  | 0, _, _, _ => none
  | fuel + 1, x, y, e =>
    if x = x2 ∧ y = y2 then some [(x, y)]
    else
      let e2 := 2 * e
      let x' := if e2 > -dy then x + sx else x
      let e' := if e2 > -dy then e - dy else e
      let e'' := if e2 < dx then e' + dx else e'
      let y' := if e2 < dx then y + sy else y
      match bresLoop dx dy sx sy x2 y2 fuel x' y' e'' with
      | none => none
      | some l => some ((x, y) :: l)

/-- Model of `drawStraightLine` (`captcha.go` lines 463–503) for given endpoints,
reduced to the sequence of pixels its Bresenham loop plots: `dx`, `dy`,
the steps `sx`, `sy` and the error term are initialised exactly as in the
source; the fuel `dx + dy + 1` is shown sufficient by the claim
theorem. -/
def drawStraightLinePoints (x1 y1 x2 y2 : Int) : Option (List (Int × Int)) :=
  let dx := goAbs (x2 - x1)
  let dy := goAbs (y2 - y1)
  let sx : Int := if x1 < x2 then 1 else -1
  let sy : Int := if y1 < y2 then 1 else -1
  bresLoop dx dy sx sy x2 y2 (dx + dy + 1).toNat x1 y1 (dx - dy)

/-- Relation between consecutively plotted Bresenham pixels: at most one
unit of movement in each axis, and strict progress along the direction
`(sx, sy)` (which makes every plotted pixel distinct). -/
def bresStepRel (sx sy : Int) (p q : Int × Int) : Prop :=
  (q.1 - p.1).natAbs ≤ 1 ∧ (q.2 - p.2).natAbs ≤ 1 ∧
    sx * p.1 + sy * p.2 < sx * q.1 + sy * q.2



/-- Model of `lerp(a, b, t)` (`part_000` lines 57–59), over exact rationals standing
in for `float64`. -/
def lerp (a b t : ℚ) : ℚ := a + (b - a) * t

/-- Go `int(f)` conversion of a `float64` value modelled as a rational:
truncation toward zero. -/
def ratTrunc (q : ℚ) : Int := if 0 ≤ q then ⌊q⌋ else ⌈q⌉

/-- The sample points of `drawCurveLine` (`captcha.go` lines 519–529): for
each `step` in `0..119`, `t = step/120`; a lerp along the chord
`(x1,y1)-(x2,y2)` and a lerp along the leg `(x1,y1)-(ctrlX,ctrlY)`, each
truncated to `int`, then a lerp between those two results at the same `t`,
truncated again. -/
def drawCurveSamples (x1 y1 x2 y2 ctrlX ctrlY : Int) : List (Int × Int) :=
  (List.range 120).map fun (step : Nat) =>
    let t : ℚ := (step : ℚ) / 120
    let x := ratTrunc (lerp (x1 : ℚ) (x2 : ℚ) t)
    let y := ratTrunc (lerp (y1 : ℚ) (y2 : ℚ) t)
    let ctrlXt := ratTrunc (lerp (x1 : ℚ) (ctrlX : ℚ) t)
    let ctrlYt := ratTrunc (lerp (y1 : ℚ) (ctrlY : ℚ) t)
    let finalX := ratTrunc (lerp (x : ℚ) (ctrlXt : ℚ) t)
    let finalY := ratTrunc (lerp (y : ℚ) (ctrlYt : ℚ) t)
    (finalX, finalY)

/-- Model of `drawCurveLine` (`captcha.go` lines 506–535) acting on the image for
given random draws: each in-bounds sample is plotted in the line colour
`randomNearColor(foreground)`; out-of-bounds samples are skipped.  `w` and
`h` are read from the canvas once, before the loop, as in the source. -/
def drawCurveLineImg (fg : RGBA) (x1 y1 x2 y2 ctrlX ctrlY rd gd bd : Nat)
    (img : Img) : Img :=
  let w := img.w
  let h := img.h
  let lineColor := randomNearColor fg rd gd bd
  (drawCurveSamples (x1 : Int) (y1 : Int) (x2 : Int) (y2 : Int) (ctrlX : Int)
      (ctrlY : Int)).foldl
    (fun im p =>
      if 0 ≤ p.1 ∧ p.1 < (w : Int) ∧ 0 ≤ p.2 ∧ p.2 < (h : Int) then
        imgSet im p.1 p.2 lineColor
      else im) img

/-- The sample point claim C7 prescribes for a given `step`: parameter
`t = step/120`, one linear interpolation along each of two legs involving
the endpoints and the control point (the chord to the end point and the
leg from the start to the control point, as in the source), then a linear
interpolation between those two results at the same `t` — not the
closed-form quadratic Bézier formula. -/
def curveSampleSpec (x1 y1 x2 y2 ctrlX ctrlY : Int) (step : Nat) : Int × Int :=
  let t : ℚ := (step : ℚ) / 120
  (ratTrunc (lerp (ratTrunc (lerp (x1 : ℚ) (x2 : ℚ) t) : ℚ)
      (ratTrunc (lerp (x1 : ℚ) (ctrlX : ℚ) t) : ℚ) t),
   ratTrunc (lerp (ratTrunc (lerp (y1 : ℚ) (y2 : ℚ) t) : ℚ)
      (ratTrunc (lerp (y1 : ℚ) (ctrlY : ℚ) t) : ℚ) t))

/-- The closed-form quadratic Bézier sample at `t = step/120`, for
comparison with the double-lerp construction. -/
def bezierSample (x1 y1 x2 y2 ctrlX ctrlY : Int) (step : Nat) : Int × Int :=
  let t : ℚ := (step : ℚ) / 120
  (ratTrunc ((1 - t) ^ 2 * (x1 : ℚ) + 2 * t * (1 - t) * (ctrlX : ℚ) + t ^ 2 * (x2 : ℚ)),
   ratTrunc ((1 - t) ^ 2 * (y1 : ℚ) + 2 * t * (1 - t) * (ctrlY : ℚ) + t ^ 2 * (y2 : ℚ)))

/-- Model of `drawStraightLine` (`captcha.go` lines 463–503) acting on the image for
given random draws: every point of the Bresenham path is plotted in the
line colour `randomNearColor(foreground)`. -/
def drawStraightLineImg (fg : RGBA) (x1 y1 x2 y2 rd gd bd : Nat) (img : Img) : Img :=
  let lineColor := randomNearColor fg rd gd bd
  ((drawStraightLinePoints (x1 : Int) (y1 : Int) (x2 : Int) (y2 : Int)).getD []).foldl
    (fun im p => imgSet im p.1 p.2 lineColor) img

/-- The random draws consumed by one iteration of the `drawLines` loop: a
`rand.Float64()` coin, the `rand.IntN` endpoint and control-point draws,
and the three `rand.IntN 50` colour draws. -/
structure LineDraws where
  coin : ℚ
  x1 : Nat
  y1 : Nat
  x2 : Nat
  y2 : Nat
  ctrlX : Nat
  ctrlY : Nat
  rd : Nat
  gd : Nat
  bd : Nat

/-- Model of `drawLines` (`captcha.go` lines 433–460): with a degenerate count range
at `0` the source canvas is returned unchanged; otherwise the line count
is `drawLinesLineCnt` and each iteration flips `rand.Float64() < 0.5` to
draw a straight or a curved line onto the copied canvas. -/
def drawLines (minLines maxLines cntDraw : Nat) (draws : Nat → LineDraws)
    (fg : RGBA) (img : Img) : Img :=
  if minLines = maxLines ∧ minLines = 0 then img
  else
    (List.range (drawLinesLineCnt minLines maxLines cntDraw)).foldl
      (fun im i =>
        let d := draws i
        if d.coin < 1/2 then
          drawStraightLineImg fg d.x1 d.y1 d.x2 d.y2 d.rd d.gd d.bd im
        else
          drawCurveLineImg fg d.x1 d.y1 d.x2 d.y2 d.ctrlX d.ctrlY d.rd d.gd d.bd im) img



/-- Go `int(f)` conversion of a `float64` value modelled as a real:
truncation toward zero. -/
noncomputable def realTrunc (r : ℝ) : Int := if 0 ≤ r then ⌊r⌋ else ⌈r⌉

/-- The warp loop of `distortChar` (`captcha.go` lines 384–404) at a given
amplitude: the destination canvas has the source's bounds and starts fully
transparent (`image.NewRGBA`); for each destination pixel `(x, y)` the
source is sampled at
`(x + int(amplitude*sin(2πy/period)), y + int(amplitude*cos(2πx/period)))`
with `period = h/2`, and only when that coordinate is in bounds. -/
noncomputable def distortWarp (amplitude : ℝ) (src : Img) : Img :=
  { w := src.w
    h := src.h
    pix := fun x y =>
      if x < src.w ∧ y < src.h then
        let period : ℝ := (src.h : ℝ) / 2
        let xOfs := amplitude * Real.sin (2 * Real.pi * (y : ℝ) / period)
        let yOfs := amplitude * Real.cos (2 * Real.pi * (x : ℝ) / period)
        let nx : Int := (x : Int) + realTrunc xOfs
        let ny : Int := (y : Int) + realTrunc yOfs
        if 0 ≤ nx ∧ nx < (src.w : Int) ∧ 0 ≤ ny ∧ ny < (src.h : Int) then
          src.pix nx.toNat ny.toNat
        else transparent
      else transparent }

/-- The warp claim C6 prescribes, written from the claim: identical to the
source's warp except that the sampling offsets are rounded to the nearest
integer (`round`) instead of converted with Go's truncating `int`. -/
noncomputable def distortWarpRound (amplitude : ℝ) (src : Img) : Img :=
  { w := src.w
    h := src.h
    pix := fun x y =>
      if x < src.w ∧ y < src.h then
        let period : ℝ := (src.h : ℝ) / 2
        let xOfs := amplitude * Real.sin (2 * Real.pi * (y : ℝ) / period)
        let yOfs := amplitude * Real.cos (2 * Real.pi * (x : ℝ) / period)
        let nx : Int := (x : Int) + round xOfs
        let ny : Int := (y : Int) + round yOfs
        if 0 ≤ nx ∧ nx < (src.w : Int) ∧ 0 ≤ ny ∧ ny < (src.h : Int) then
          src.pix nx.toNat ny.toNat
        else transparent
      else transparent }

/-- Model of `distortChar` (`captcha.go` lines 370–405): fast path returns the source
unchanged when the distortion range is degenerate at `0`; otherwise the
amplitude is the fixed bound or the `rand.Float64()` draw `u` mapped into
the configured range. -/
noncomputable def distortChar (minDistortion maxDistortion : ℚ) (u : ℝ) (src : Img) : Img :=
  if minDistortion = maxDistortion then
    if minDistortion = 0 then src
    else distortWarp ((minDistortion : ℝ)) src
  else
    distortWarp (u * ((maxDistortion : ℝ) - (minDistortion : ℝ)) + (minDistortion : ℝ)) src

/-- Model of `scaleChar` (`captcha.go` lines 342–367): fast path returns the source
unchanged when the scale range is degenerate at `1`; otherwise the X/Y
factors are the fixed bound or two independent `rand.Float64()` draws
mapped into the range, the destination size is `int(w*scaleX) ×
int(h*scaleY)`, and the Catmull-Rom resampling itself is external
(`golang.org/x/image/draw.CatmullRom.Scale`), abstracted as the
`catmullRomScale` oracle receiving the destination size. -/
def scaleChar (minScale maxScale : ℚ) (uX uY : ℚ)
    (catmullRomScale : Nat → Nat → Img → Img) (src : Img) : Img :=
  if minScale = maxScale then
    if minScale = 1 then src
    else
      catmullRomScale (ratTrunc ((src.w : ℚ) * minScale)).toNat
        (ratTrunc ((src.h : ℚ) * minScale)).toNat src
  else
    catmullRomScale
      (ratTrunc ((src.w : ℚ) * (uX * (maxScale - minScale) + minScale))).toNat
      (ratTrunc ((src.h : ℚ) * (uY * (maxScale - minScale) + minScale))).toNat src

/-- The non-identity path of `rotateChar` (`captcha.go` lines 315–338):
`sincos(π*rotation/180)`, destination size
`int(|w*cos + |w*sin||) × int(|h*cos + |h*sin||)`, centres
`srcCx = w/2`, `srcCy = dstH/2`, `dstCx = dstW/2`, `dstCy = dstH/2`, and
the affine matrix `(cos, -sin, dstCx - srcCx*cos + srcCy*sin, sin, cos,
dstCy - srcCx*sin - srcCy*cos)`; the Catmull-Rom affine resampling is
external (`draw.CatmullRom.Transform`), abstracted as the
`catmullRomTransform` oracle. -/
noncomputable def rotateBody (rotation : ℝ)
    (catmullRomTransform : Nat → Nat → ℝ × ℝ × ℝ × ℝ × ℝ × ℝ → Img → Img)
    (src : Img) : Img :=
  let sin := Real.sin (Real.pi * rotation / 180)
  let cos := Real.cos (Real.pi * rotation / 180)
  let dstW := (realTrunc (abs ((src.w : ℝ) * cos + abs ((src.w : ℝ) * sin)))).toNat
  let dstH := (realTrunc (abs ((src.h : ℝ) * cos + abs ((src.h : ℝ) * sin)))).toNat
  let srcCx : ℝ := (src.w : ℝ) / 2
  let srcCy : ℝ := (dstH : ℝ) / 2
  let dstCx : ℝ := (dstW : ℝ) / 2
  let dstCy : ℝ := (dstH : ℝ) / 2
  catmullRomTransform dstW dstH
    (cos, -sin, dstCx - srcCx * cos + srcCy * sin, sin, cos,
      dstCy - srcCx * sin - srcCy * cos) src

/-- Model of `rotateChar` (`captcha.go` lines 301–339): fast path returns the source
unchanged when the rotation range is degenerate at `0`; otherwise the
angle is the fixed bound or the `rand.Float64()` draw mapped into the
configured range, fed to the rotation body. -/
noncomputable def rotateChar (minRotation maxRotation : ℚ) (u : ℝ)
    (catmullRomTransform : Nat → Nat → ℝ × ℝ × ℝ × ℝ × ℝ × ℝ → Img → Img)
    (src : Img) : Img :=
  if minRotation = maxRotation then
    if minRotation = 0 then src
    else rotateBody ((minRotation : ℝ)) catmullRomTransform src
  else
    rotateBody (u * ((maxRotation : ℝ) - (minRotation : ℝ)) + (minRotation : ℝ))
      catmullRomTransform src

/-- An 8×8 canvas whose pixel at `(x, y)` stores `(x, y)` in its red and
green channels, making sampled source coordinates recoverable. -/
def coordImg8 : Img := ⟨8, 8, fun x y => ⟨x, y, 0, 255⟩⟩


set_option maxHeartbeats 1600000 in
/-- Claim C9: `New` rejects a configuration, returning an error and no
`Captcha`, exactly when one of the listed invalid-parameter conditions
holds; once validation passes, the only remaining failure source is the
font-resource loading step. -/
theorem claim9_new_validation (loadFont : String → ℚ → Except String Unit)
    (c : Captcha) :
    (validateErr c ≠ none ↔ invalidParamsClaim c) ∧
    (validateErr c = none →
      NewGo loadFont c = Except.ok c ∨
      ∃ e, NewGo loadFont c = Except.error e ∧
        loadFont c.fontPath c.fontSize = Except.error e) := by
  constructor
  · unfold validateErr invalidParamsClaim
    split_ifs with h1 h2 h3 h4 h5 h6 h7 h8 h9 h10 h11 <;>
      first
        | exact iff_of_true (fun hc => Option.noConfusion hc) (by tauto)
        | exact iff_of_false (fun hc => hc rfl) (by tauto)
  · intro h
    unfold NewGo
    rw [h]
    rcases hl : loadFont c.fontPath c.fontSize with e | u
    · exact Or.inr ⟨e, rfl, rfl⟩
    · exact Or.inl rfl

set_option maxHeartbeats 1600000 in
/-- Claim C10: for a configuration that passed validation (so with
`noiseLevel ∈ [0,1]`), a `Generate` call leaves every field of the receiver
unchanged. -/
theorem claim10_generate_frame (c : Captcha) (h : validateErr c = none) :
    generateConfig c = c := by
  unfold validateErr at h
  split_ifs at h with h1 h2 h3 h4 h5 h6 h7 h8 h9 h10 h11
  unfold generateConfig drawNoiseConfig
  split_ifs with g1 g2
  · rfl
  · exact absurd (Or.inr g2) h11
  · rfl

/-- Witness for C10 at the concrete valid configuration `cValid`. -/
theorem claim10_generate_frame_witness :
    validateErr cValid = none ∧ generateConfig cValid = cValid :=
  ⟨by decide, claim10_generate_frame cValid (by decide)⟩

/-- Claim C1: for a validated configuration the generated code has its length
in `[minLength, maxLength]` (equal to `L` when both bounds are `L`), the
length is an injective-and-surjective image of the uniform `rand.IntN`
draw over that range, every character belongs to the configured character
set, and the `i`-th character is the `draws i`-th element of the set (one
independent uniform index draw per position). -/
theorem claim1_generate_code (minLength maxLength : Nat) (set : List Char)
    (lenDraw : Nat) (draws : Nat → Nat)
    (hmm : minLength ≤ maxLength)
    (hlen : lenDraw < maxLength - minLength + 1)
    (hset : 0 < set.length)
    (hdraws : ∀ i, draws i < set.length) :
    (minLength ≤ (captchaRandomString minLength maxLength set lenDraw draws).length ∧
      (captchaRandomString minLength maxLength set lenDraw draws).length ≤ maxLength) ∧
    (minLength = maxLength →
      (captchaRandomString minLength maxLength set lenDraw draws).length = minLength) ∧
    (∀ ch ∈ captchaRandomString minLength maxLength set lenDraw draws, ch ∈ set) ∧
    (∀ i, i < (captchaRandomString minLength maxLength set lenDraw draws).length →
      (captchaRandomString minLength maxLength set lenDraw draws)[i]? =
        some (set.getD (draws i) 'A')) ∧
    (∀ L : Nat, (minLength ≤ L ∧ L ≤ maxLength) ↔
      ∃! u, u < maxLength - minLength + 1 ∧
        randomStringLength minLength maxLength u = L) := by
  have hlength : (captchaRandomString minLength maxLength set lenDraw draws).length =
      randomStringLength minLength maxLength lenDraw := by
    simp [captchaRandomString, randomString]
  refine ⟨?_, ?_, ?_, ?_, ?_⟩
  · rw [hlength]
    unfold randomStringLength
    split_ifs with he <;> omega
  · intro he
    rw [hlength]
    unfold randomStringLength
    simp [he]
  · intro ch hch
    simp only [captchaRandomString, randomString, List.mem_map, List.mem_range] at hch
    obtain ⟨i, _, hi⟩ := hch
    rw [← hi, List.getD_eq_getElem set 'A' (hdraws i)]
    exact List.getElem_mem (hdraws i)
  · intro i hi
    rw [hlength] at hi
    simp [captchaRandomString, randomString, List.getElem?_map, List.getElem?_range, hi]
  · intro L
    constructor
    · rintro ⟨hL1, hL2⟩
      refine ⟨L - minLength, ⟨by omega, ?_⟩, ?_⟩
      · unfold randomStringLength
        split_ifs with he <;> omega
      · rintro y ⟨hy1, hy2⟩
        unfold randomStringLength at hy2
        split_ifs at hy2 with he <;> omega
    · rintro ⟨u, ⟨hu1, hu2⟩, _⟩
      unfold randomStringLength at hu2
      split_ifs at hu2 with he <;> omega

/-- Witness for C1: a concrete run with bounds `[2,4]`, character set
`abc`, length draw `1` and index draws `i % 3`. -/
theorem claim1_generate_code_witness :
    (2 ≤ (captchaRandomString 2 4 ['a', 'b', 'c'] 1 (fun i => i % 3)).length ∧
      (captchaRandomString 2 4 ['a', 'b', 'c'] 1 (fun i => i % 3)).length ≤ 4) ∧
    ((2 : Nat) = 4 →
      (captchaRandomString 2 4 ['a', 'b', 'c'] 1 (fun i => i % 3)).length = 2) ∧
    (∀ ch ∈ captchaRandomString 2 4 ['a', 'b', 'c'] 1 (fun i => i % 3),
      ch ∈ ['a', 'b', 'c']) ∧
    (∀ i, i < (captchaRandomString 2 4 ['a', 'b', 'c'] 1 (fun i => i % 3)).length →
      (captchaRandomString 2 4 ['a', 'b', 'c'] 1 (fun i => i % 3))[i]? =
        some ((['a', 'b', 'c'] : List Char).getD (i % 3) 'A')) ∧
    (∀ L : Nat, (2 ≤ L ∧ L ≤ 4) ↔
      ∃! u, u < 4 - 2 + 1 ∧ randomStringLength 2 4 u = L) :=
  claim1_generate_code 2 4 ['a', 'b', 'c'] 1 (fun i => i % 3)
    (by decide) (by decide) (by decide) (fun i => by simp only [List.length_cons, List.length_nil]; omega)

/-- Claim C4 counterexample: with base red channel 250 and red draw 49 (the
largest `rand.IntN 50` value, offset `+24`), the code wraps the sum modulo
256 and produces channel value 18, which no clamped-to-`[0,255]` sum
`base + offset` with offset in `[-25,25]` can equal — refuting both the
claimed saturation and the claimed offset range. -/
theorem claim4_counterexample :
    (randomNearColor ⟨250, 0, 0, 255⟩ 49 0 0).r = 18 ∧
    (∀ o : Int, -25 ≤ o → o ≤ 25 → max 0 (min 255 ((250 : Int) + o)) ≠ 18) := by
  constructor
  · decide
  · intro o h1 h2
    omega

/-- Claim C4 as amended: each colour channel is perturbed by an offset
`rand.IntN(50)-25 ∈ [-25,24]` in wrapping (mod 256) `uint8` arithmetic —
the `clamp(·,0,255)` call is the identity on every `uint8` value, so no
saturation occurs — and the alpha channel is preserved. -/
theorem claim4_amended_near_color (base : RGBA) (rd gd bd : Nat)
    (hr : base.r < 256) (hg : base.g < 256) (hb : base.b < 256)
    (ha : base.a < 256) (hrd : rd < 50) (hgd : gd < 50) (hbd : bd < 50) :
    (randomNearColor base rd gd bd).r =
      ((((base.r : Int) + ((rd : Int) - 25)) % 256).toNat) ∧
    (randomNearColor base rd gd bd).g =
      ((((base.g : Int) + ((gd : Int) - 25)) % 256).toNat) ∧
    (randomNearColor base rd gd bd).b =
      ((((base.b : Int) + ((bd : Int) - 25)) % 256).toNat) ∧
    (randomNearColor base rd gd bd).a = base.a ∧
    (-25 ≤ (rd : Int) - 25 ∧ (rd : Int) - 25 ≤ 24) ∧
    (∀ v : Nat, v < 256 → clamp v 0 255 = v) := by
  have hclamp : ∀ v : Nat, v < 256 → clamp v 0 255 = v := by
    intro v hv
    unfold clamp
    split_ifs <;> omega
  have hdiv : ∀ v : Nat, v < 256 → v * 257 / 256 % 256 = v := by
    intro v hv
    have h1 : v * 257 = v + 256 * v := by ring
    rw [h1, Nat.add_mul_div_left v v (by norm_num), Nat.div_eq_of_lt hv]
    omega
  refine ⟨?_, ?_, ?_, ?_, by omega, hclamp⟩
  · show clamp ((base.r * 257 / 256 % 256 + uint8OfInt ((rd : Int) - 25)) % 256) 0 255 = _
    rw [hdiv base.r hr, hclamp _ (Nat.mod_lt _ (by omega))]
    unfold uint8OfInt
    omega
  · show clamp ((base.g * 257 / 256 % 256 + uint8OfInt ((gd : Int) - 25)) % 256) 0 255 = _
    rw [hdiv base.g hg, hclamp _ (Nat.mod_lt _ (by omega))]
    unfold uint8OfInt
    omega
  · show clamp ((base.b * 257 / 256 % 256 + uint8OfInt ((bd : Int) - 25)) % 256) 0 255 = _
    rw [hdiv base.b hb, hclamp _ (Nat.mod_lt _ (by omega))]
    unfold uint8OfInt
    omega
  · show base.a * 257 / 256 % 256 = base.a
    exact hdiv base.a ha

/-- Witness for the amended C4 at the concrete base `(250, 10, 0, 255)` with
draws `49`, `0`, `25`. -/
theorem claim4_amended_near_color_witness :
    (randomNearColor ⟨250, 10, 0, 255⟩ 49 0 25).r =
      ((((250 : Int) + ((49 : Int) - 25)) % 256).toNat) ∧
    (randomNearColor ⟨250, 10, 0, 255⟩ 49 0 25).g =
      ((((10 : Int) + ((0 : Int) - 25)) % 256).toNat) ∧
    (randomNearColor ⟨250, 10, 0, 255⟩ 49 0 25).b =
      ((((0 : Int) + ((25 : Int) - 25)) % 256).toNat) ∧
    (randomNearColor ⟨250, 10, 0, 255⟩ 49 0 25).a = 255 ∧
    (-25 ≤ (49 : Int) - 25 ∧ (49 : Int) - 25 ≤ 24) ∧
    (∀ v : Nat, v < 256 → clamp v 0 255 = v) :=
  claim4_amended_near_color ⟨250, 10, 0, 255⟩ 49 0 25
    (by decide) (by decide) (by decide) (by decide)
    (by decide) (by decide) (by decide)



/-- The `pixelBounds` scan enumerates exactly the in-range coordinates. -/
theorem mem_scanCoords (w h x y : Nat) :
    (x, y) ∈ scanCoords w h ↔ x < w ∧ y < h := by
  simp only [scanCoords, List.mem_flatMap, List.mem_map, List.mem_range, Prod.mk.injEq]
  constructor
  · rintro ⟨b, hb, a, ha, he1, he2⟩
    omega
  · rintro ⟨hx, hy⟩
    exact ⟨y, hy, x, hx, rfl, rfl⟩

/-- The `pixelBounds` fold ignores transparent pixels: it equals the
componentwise min/max fold over the opaque coordinates. -/
theorem pbFold_eq (img : Img) (l : List (Nat × Nat)) : ∀ st : Nat × Nat × Nat × Nat,
    l.foldl (pbStep img) st =
      (((opaqueCoords img l).map Prod.fst).foldl min st.1,
       ((opaqueCoords img l).map Prod.snd).foldl min st.2.1,
       ((opaqueCoords img l).map Prod.fst).foldl max st.2.2.1,
       ((opaqueCoords img l).map Prod.snd).foldl max st.2.2.2) := by
  induction l with
  | nil => intro st; simp [opaqueCoords]
  | cons q tl ih =>
    intro st
    by_cases hop : 0 < (img.pix q.1 q.2).a
    · have hfilter : opaqueCoords img (q :: tl) = q :: opaqueCoords img tl := by
        simp [opaqueCoords, List.filter_cons, hop]
      rw [hfilter]
      simp only [List.foldl_cons, List.map_cons]
      rw [ih]
      unfold pbStep
      rw [if_pos hop]
    · have hfilter : opaqueCoords img (q :: tl) = opaqueCoords img tl := by
        simp [opaqueCoords, List.filter_cons, hop]
      rw [hfilter]
      simp only [List.foldl_cons]
      rw [ih]
      unfold pbStep
      rw [if_neg hop]

/-- A `foldl min` over naturals is below its seed and every element, and is
attained by the seed or an element. -/
theorem foldl_min_spec (l : List Nat) : ∀ a : Nat,
    l.foldl min a ≤ a ∧ (∀ x ∈ l, l.foldl min a ≤ x) ∧
      (l.foldl min a = a ∨ l.foldl min a ∈ l) := by
  induction l with
  | nil => intro a; simp
  | cons x tl ih =>
    intro a
    simp only [List.foldl_cons]
    obtain ⟨h1, h2, h3⟩ := ih (min a x)
    refine ⟨le_trans h1 (min_le_left a x), ?_, ?_⟩
    · intro y hy
      rcases List.mem_cons.mp hy with he | hm
      · subst he
        exact le_trans h1 (min_le_right a y)
      · exact h2 y hm
    · rcases h3 with he | hm
      · rcases Nat.le_total a x with hax | hxa
        · left
          rw [he]
          omega
        · right
          rw [he]
          have : min a x = x := by omega
          rw [this]
          exact List.mem_cons_self x tl
      · right
        exact List.mem_cons_of_mem x hm

/-- A `foldl max` over naturals is above its seed and every element, and is
attained by the seed or an element. -/
theorem foldl_max_spec (l : List Nat) : ∀ a : Nat,
    a ≤ l.foldl max a ∧ (∀ x ∈ l, x ≤ l.foldl max a) ∧
      (l.foldl max a = a ∨ l.foldl max a ∈ l) := by
  induction l with
  | nil => intro a; simp
  | cons x tl ih =>
    intro a
    simp only [List.foldl_cons]
    obtain ⟨h1, h2, h3⟩ := ih (max a x)
    refine ⟨le_trans (le_max_left a x) h1, ?_, ?_⟩
    · intro y hy
      rcases List.mem_cons.mp hy with he | hm
      · subst he
        exact le_trans (le_max_right a y) h1
      · exact h2 y hm
    · rcases h3 with he | hm
      · rcases Nat.le_total a x with hax | hxa
        · right
          rw [he]
          have : max a x = x := by omega
          rw [this]
          exact List.mem_cons_self x tl
        · left
          rw [he]
          omega
      · right
        exact List.mem_cons_of_mem x hm

/-- Membership in the opaque-coordinate list characterised through
`OpaqueAt`. -/
theorem mem_opaqueCoords (img : Img) (x y : Nat) :
    (x, y) ∈ opaqueCoords img (scanCoords img.w img.h) ↔ OpaqueAt img x y := by
  unfold opaqueCoords OpaqueAt
  rw [List.mem_filter]
  simp only [mem_scanCoords, decide_eq_true_eq]
  tauto

/-- Claim C3 counterexample: on a 2×2 all-transparent canvas `pixelBounds`
returns the full-canvas rectangle `(0,0)-(2,2)` (because `image.Rect` swaps
the inverted corners), whose area is 4, not the claimed zero-area
rectangle; and on a 2×2 canvas whose only opaque pixel is `(1,1)` it
returns the empty rectangle `(1,1)-(1,1)`, which does not contain that
pixel under Go's half-open rectangle membership. -/
theorem claim3_counterexample :
    pixelBounds transparentImg2 = ⟨0, 0, 2, 2⟩ ∧
    (pixelBounds transparentImg2).dx * (pixelBounds transparentImg2).dy = 4 ∧
    pixelBounds onePixImg2 = ⟨1, 1, 1, 1⟩ ∧
    ¬ (pixelBounds onePixImg2).contains 1 1 := by decide

/-- Claim C3 as amended: `pixelBounds` always terminates and is
deterministic; when at least one pixel has non-zero alpha it returns the
rectangle whose `Min` corner is the componentwise minimum and whose `Max`
corner the componentwise maximum of the opaque coordinates — so every
opaque pixel `(x,y)` satisfies `minX ≤ x ≤ maxX` and `minY ≤ y ≤ maxY`
(note `Max` is attained, hence the pixels in the extreme row/column lie on
the rectangle's half-open boundary rather than strictly inside it), and
each of the four bounds is attained by some opaque pixel; on a canvas with
no opaque pixel it returns the full canvas rectangle `(0,0)-(w,h)`,
deterministic but of area `w*h`. -/
theorem claim3_amended_pixel_bounds (img : Img) :
    ((∀ x y, x < img.w → y < img.h → (img.pix x y).a = 0) →
      pixelBounds img = ⟨0, 0, (img.w : Int), (img.h : Int)⟩) ∧
    (∀ x y, OpaqueAt img x y →
      (pixelBounds img).minX ≤ (x : Int) ∧ (x : Int) ≤ (pixelBounds img).maxX ∧
      (pixelBounds img).minY ≤ (y : Int) ∧ (y : Int) ≤ (pixelBounds img).maxY) ∧
    ((∃ x y, OpaqueAt img x y) →
      (∃ x y, OpaqueAt img x y ∧ (x : Int) = (pixelBounds img).minX) ∧
      (∃ x y, OpaqueAt img x y ∧ (x : Int) = (pixelBounds img).maxX) ∧
      (∃ x y, OpaqueAt img x y ∧ (y : Int) = (pixelBounds img).minY) ∧
      (∃ x y, OpaqueAt img x y ∧ (y : Int) = (pixelBounds img).maxY)) := by
  have hfold := pbFold_eq img (scanCoords img.w img.h) (img.w, img.h, 0, 0)
  by_cases hex : ∃ x y, OpaqueAt img x y
  · obtain ⟨x0, y0, hop0⟩ := hex
    have hmem0 : (x0, y0) ∈ opaqueCoords img (scanCoords img.w img.h) :=
      (mem_opaqueCoords img x0 y0).mpr hop0
    have hx0 : x0 ∈ (opaqueCoords img (scanCoords img.w img.h)).map Prod.fst :=
      List.mem_map_of_mem Prod.fst hmem0
    have hy0 : y0 ∈ (opaqueCoords img (scanCoords img.w img.h)).map Prod.snd :=
      List.mem_map_of_mem Prod.snd hmem0
    obtain ⟨hm1i, hm1m, hm1c⟩ :=
      foldl_min_spec ((opaqueCoords img (scanCoords img.w img.h)).map Prod.fst) img.w
    obtain ⟨hM1i, hM1m, hM1c⟩ :=
      foldl_max_spec ((opaqueCoords img (scanCoords img.w img.h)).map Prod.fst) 0
    obtain ⟨hm2i, hm2m, hm2c⟩ :=
      foldl_min_spec ((opaqueCoords img (scanCoords img.w img.h)).map Prod.snd) img.h
    obtain ⟨hM2i, hM2m, hM2c⟩ :=
      foldl_max_spec ((opaqueCoords img (scanCoords img.w img.h)).map Prod.snd) 0
    have hns : pixelBounds img =
        ⟨(((opaqueCoords img (scanCoords img.w img.h)).map Prod.fst).foldl min img.w : Nat),
         (((opaqueCoords img (scanCoords img.w img.h)).map Prod.snd).foldl min img.h : Nat),
         (((opaqueCoords img (scanCoords img.w img.h)).map Prod.fst).foldl max 0 : Nat),
         (((opaqueCoords img (scanCoords img.w img.h)).map Prod.snd).foldl max 0 : Nat)⟩ := by
      unfold pixelBounds
      rw [hfold]
      have h1 := le_trans (hm1m x0 hx0) (hM1m x0 hx0)
      have h2 := le_trans (hm2m y0 hy0) (hM2m y0 hy0)
      unfold rect
      dsimp only
      rw [if_neg (by omega), if_neg (by omega)]
    refine ⟨?_, ?_, ?_⟩
    · intro hall
      obtain ⟨hw0, hh0, ha0⟩ := hop0
      rw [hall x0 y0 hw0 hh0] at ha0
      omega
    · intro x y hop
      have hmem : (x, y) ∈ opaqueCoords img (scanCoords img.w img.h) :=
        (mem_opaqueCoords img x y).mpr hop
      have h1 := hm1m x (List.mem_map_of_mem Prod.fst hmem)
      have h2 := hM1m x (List.mem_map_of_mem Prod.fst hmem)
      have h3 := hm2m y (List.mem_map_of_mem Prod.snd hmem)
      have h4 := hM2m y (List.mem_map_of_mem Prod.snd hmem)
      rw [hns]
      dsimp only
      exact ⟨by exact_mod_cast h1, by exact_mod_cast h2,
        by exact_mod_cast h3, by exact_mod_cast h4⟩
    · intro _
      have hw0 : x0 < img.w := hop0.1
      have hh0 : y0 < img.h := hop0.2.1
      refine ⟨?_, ?_, ?_, ?_⟩
      · rcases hm1c with he | hm
        · have := hm1m x0 hx0
          omega
        · obtain ⟨p, hpL, hpe⟩ := List.mem_map.mp hm
          refine ⟨p.1, p.2, (mem_opaqueCoords img p.1 p.2).mp hpL, ?_⟩
          rw [hns]
          dsimp only
          exact_mod_cast hpe
      · rcases hM1c with he | hm
        · refine ⟨x0, y0, ⟨hw0, hh0, hop0.2.2⟩, ?_⟩
          rw [hns]
          have := hM1m x0 hx0
          have : x0 = 0 := by omega
          simp [this, he]
        · obtain ⟨p, hpL, hpe⟩ := List.mem_map.mp hm
          refine ⟨p.1, p.2, (mem_opaqueCoords img p.1 p.2).mp hpL, ?_⟩
          rw [hns]
          dsimp only
          exact_mod_cast hpe
      · rcases hm2c with he | hm
        · have := hm2m y0 hy0
          omega
        · obtain ⟨p, hpL, hpe⟩ := List.mem_map.mp hm
          refine ⟨p.1, p.2, (mem_opaqueCoords img p.1 p.2).mp hpL, ?_⟩
          rw [hns]
          dsimp only
          exact_mod_cast hpe
      · rcases hM2c with he | hm
        · refine ⟨x0, y0, ⟨hw0, hh0, hop0.2.2⟩, ?_⟩
          rw [hns]
          have := hM2m y0 hy0
          have : y0 = 0 := by omega
          simp [this, he]
        · obtain ⟨p, hpL, hpe⟩ := List.mem_map.mp hm
          refine ⟨p.1, p.2, (mem_opaqueCoords img p.1 p.2).mp hpL, ?_⟩
          rw [hns]
          dsimp only
          exact_mod_cast hpe
  · have hL : opaqueCoords img (scanCoords img.w img.h) = [] := by
      rw [List.eq_nil_iff_forall_not_mem]
      rintro ⟨px, py⟩ hp
      exact hex ⟨px, py, (mem_opaqueCoords img px py).mp hp⟩
    refine ⟨?_, ?_, ?_⟩
    · intro _
      unfold pixelBounds
      rw [hfold, hL]
      simp only [List.map_nil, List.foldl_nil]
      unfold rect
      dsimp only
      split_ifs <;> dsimp only <;> simp only [Rectangle.mk.injEq, true_and, and_true] <;> omega
    · intro x y hop
      exact absurd ⟨x, y, hop⟩ hex
    · intro hex2
      exact absurd hex2 hex

/-- Witness for the amended C3 at the concrete single-opaque-pixel canvas
`onePixImg2`. -/
theorem claim3_amended_pixel_bounds_witness :
    OpaqueAt onePixImg2 1 1 ∧
    ((pixelBounds onePixImg2).minX ≤ ((1 : Nat) : Int) ∧
      ((1 : Nat) : Int) ≤ (pixelBounds onePixImg2).maxX ∧
      (pixelBounds onePixImg2).minY ≤ ((1 : Nat) : Int) ∧
      ((1 : Nat) : Int) ≤ (pixelBounds onePixImg2).maxY) :=
  ⟨by decide, (claim3_amended_pixel_bounds onePixImg2).2.1 1 1 (by decide)⟩

/-- One unfolding step of the Bresenham loop at positive fuel. -/
theorem bresLoop_succ (dx dy sx sy x2 y2 : Int) (fuel : Nat) (x y e : Int) :
    bresLoop dx dy sx sy x2 y2 (fuel + 1) x y e =
      if x = x2 ∧ y = y2 then some [(x, y)]
      else
        match bresLoop dx dy sx sy x2 y2 fuel
            (if 2 * e > -dy then x + sx else x)
            (if 2 * e < dx then y + sy else y)
            (if 2 * e < dx then (if 2 * e > -dy then e - dy else e) + dx
              else (if 2 * e > -dy then e - dy else e)) with
        | none => none
        | some l => some ((x, y) :: l) := rfl

/-- Exiting the Bresenham loop: when the current point is the end point the
loop plots it and stops, whatever the error value. -/
theorem bresLoop_done (dx dy sx sy x2 y2 : Int) (fuel : Nat) (e : Int) :
    bresLoop dx dy sx sy x2 y2 (fuel + 1) x2 y2 e = some [(x2, y2)] := by
  rw [bresLoop_succ, if_pos ⟨rfl, rfl⟩]

/-- Main invariant of the Bresenham loop: starting from the state reached
after `a` x-steps and `b` y-steps (error term
`dx - dy - a*dy + b*dx`), with fuel exceeding the remaining step count, the
loop terminates at the end point, listing points that start at the current
point, progress strictly, stay inside the step rectangle and move at most
one unit per axis per step. -/
theorem bresLoop_run (dx dy sx sy x0 y0 : Int)
    (hdx : 0 ≤ dx) (hdy : 0 ≤ dy)
    (hsx : sx = 1 ∨ sx = -1) (hsy : sy = 1 ∨ sy = -1) :
    ∀ (n : Nat) (a b : Int), 0 ≤ a → a ≤ dx → 0 ≤ b → b ≤ dy →
      dx - a + (dy - b) ≤ (n : Int) →
      ∃ l, bresLoop dx dy sx sy (x0 + dx * sx) (y0 + dy * sy) (n + 1)
            (x0 + a * sx) (y0 + b * sy) (dx - dy - a * dy + b * dx) = some l ∧
        l.head? = some (x0 + a * sx, y0 + b * sy) ∧
        l.getLast? = some (x0 + dx * sx, y0 + dy * sy) ∧
        List.Chain' (bresStepRel sx sy) l ∧
        (∀ p ∈ l, ∃ a' b' : Int, a ≤ a' ∧ a' ≤ dx ∧ b ≤ b' ∧ b' ≤ dy ∧
          p = (x0 + a' * sx, y0 + b' * sy)) := by
  intro n
  induction n with
  | zero =>
    intro a b ha0 hadx hb0 hbdy hcnt
    have ha : a = dx := by omega
    have hb : b = dy := by omega
    have hax : x0 + a * sx = x0 + dx * sx := by rw [ha]
    have hby : y0 + b * sy = y0 + dy * sy := by rw [hb]
    refine ⟨[(x0 + dx * sx, y0 + dy * sy)], ?_, ?_, by simp, ?_, ?_⟩
    · rw [hax, hby, bresLoop_done]
    · simp [hax, hby]
    · exact List.chain'_singleton _
    · intro p hp
      rw [List.mem_singleton] at hp
      exact ⟨dx, dy, by omega, le_refl dx, by omega, le_refl dy, hp⟩
  | succ n ih =>
    intro a b ha0 hadx hb0 hbdy hcnt
    by_cases hend : a = dx ∧ b = dy
    · obtain ⟨ha, hb⟩ := hend
      have hax : x0 + a * sx = x0 + dx * sx := by rw [ha]
      have hby : y0 + b * sy = y0 + dy * sy := by rw [hb]
      refine ⟨[(x0 + dx * sx, y0 + dy * sy)], ?_, ?_, by simp, ?_, ?_⟩
      · rw [hax, hby, bresLoop_done]
      · simp [hax, hby]
      · exact List.chain'_singleton _
      · intro p hp
        rw [List.mem_singleton] at hp
        exact ⟨dx, dy, by omega, le_refl dx, by omega, le_refl dy, hp⟩
    · have hsxne : sx ≠ 0 := by rcases hsx with h | h <;> omega
      have hsyne : sy ≠ 0 := by rcases hsy with h | h <;> omega
      have hcond : ¬(x0 + a * sx = x0 + dx * sx ∧ y0 + b * sy = y0 + dy * sy) := by
        rintro ⟨h1, h2⟩
        exact hend ⟨mul_right_cancel₀ hsxne (by linarith), mul_right_cancel₀ hsyne (by linarith)⟩
      set e := dx - dy - a * dy + b * dx with hedef
      have hmoveX : 2 * e > -dy → a < dx := by
        intro hm
        by_contra hc
        have ha : a = dx := by omega
        have hbne : b ≠ dy := fun hbe => hend ⟨ha, hbe⟩
        have hb : b < dy := by omega
        have he2 : e = dx - dy - dx * dy + b * dx := by rw [hedef, ha]
        nlinarith [mul_nonneg hdx (show (0:ℤ) ≤ dy - 1 - b by omega)]
      have hmoveY : 2 * e < dx → b < dy := by
        intro hm
        by_contra hc
        have hb : b = dy := by omega
        have hane : a ≠ dx := fun hae => hend ⟨hae, hb⟩
        have ha : a < dx := by omega
        have he2 : e = dx - dy - a * dy + dy * dx := by rw [hedef, hb]
        nlinarith [mul_nonneg hdy (show (0:ℤ) ≤ dx - 1 - a by omega)]
      have hmove : 2 * e > -dy ∨ 2 * e < dx := by
        by_contra hc
        push_neg at hc
        obtain ⟨h1, h2⟩ := hc
        have h3 : dx + dy ≤ 0 := by linarith
        exact hend ⟨by omega, by omega⟩
      set a' := if 2 * e > -dy then a + 1 else a with hadef
      set b' := if 2 * e < dx then b + 1 else b with hbdef
      have ha'r : a ≤ a' ∧ a' ≤ dx ∧ a' ≤ a + 1 := by
        rw [hadef]
        split_ifs with hm
        · have := hmoveX hm
          exact ⟨by omega, by omega, by omega⟩
        · exact ⟨le_refl a, hadx, by omega⟩
      have hb'r : b ≤ b' ∧ b' ≤ dy ∧ b' ≤ b + 1 := by
        rw [hbdef]
        split_ifs with hm
        · have := hmoveY hm
          exact ⟨by omega, by omega, by omega⟩
        · exact ⟨le_refl b, hbdy, by omega⟩
      have hprog : a + b < a' + b' := by
        rw [hadef, hbdef]
        split_ifs <;> omega
      have hx' : (if 2 * e > -dy then x0 + a * sx + sx else x0 + a * sx) = x0 + a' * sx := by
        rw [hadef]
        split_ifs <;> ring
      have hy' : (if 2 * e < dx then y0 + b * sy + sy else y0 + b * sy) = y0 + b' * sy := by
        rw [hbdef]
        split_ifs <;> ring
      have he'' :
          (if 2 * e < dx then (if 2 * e > -dy then e - dy else e) + dx
            else (if 2 * e > -dy then e - dy else e)) =
          dx - dy - a' * dy + b' * dx := by
        rw [hadef, hbdef, hedef]
        split_ifs <;> ring
      obtain ⟨l', hl'eq, hl'head, hl'last, hl'chain, hl'mem⟩ :=
        ih a' b' (by omega) ha'r.2.1 (by omega) hb'r.2.1 (by push_cast at hcnt ⊢; omega)
      rcases l' with _ | ⟨q, t⟩
      · simp at hl'head
      have hq : q = (x0 + a' * sx, y0 + b' * sy) := by
        simpa using hl'head
      refine ⟨(x0 + a * sx, y0 + b * sy) :: q :: t, ?_, rfl, ?_, ?_, ?_⟩
      · rw [bresLoop_succ, if_neg hcond, hx', hy', he'', hl'eq]
      · rw [List.getLast?_cons_cons]
        exact hl'last
      · rw [List.chain'_cons]
        refine ⟨?_, hl'chain⟩
        rw [hq]
        unfold bresStepRel
        have hsxa : sx.natAbs = 1 := by rcases hsx with h | h <;> subst h <;> rfl
        have hsya : sy.natAbs = 1 := by rcases hsy with h | h <;> subst h <;> rfl
        refine ⟨?_, ?_, ?_⟩
        · show (x0 + a' * sx - (x0 + a * sx)).natAbs ≤ 1
          rw [show x0 + a' * sx - (x0 + a * sx) = (a' - a) * sx by ring, Int.natAbs_mul, hsxa,
            mul_one]
          omega
        · show (y0 + b' * sy - (y0 + b * sy)).natAbs ≤ 1
          rw [show y0 + b' * sy - (y0 + b * sy) = (b' - b) * sy by ring, Int.natAbs_mul, hsya,
            mul_one]
          omega
        · show sx * (x0 + a * sx) + sy * (y0 + b * sy) < sx * (x0 + a' * sx) + sy * (y0 + b' * sy)
          have hsx2 : sx * sx = 1 := by rcases hsx with h | h <;> subst h <;> norm_num
          have hsy2 : sy * sy = 1 := by rcases hsy with h | h <;> subst h <;> norm_num
          have key : sx * (x0 + a' * sx) + sy * (y0 + b' * sy) -
              (sx * (x0 + a * sx) + sy * (y0 + b * sy)) =
              (a' - a) * (sx * sx) + (b' - b) * (sy * sy) := by ring
          rw [hsx2, hsy2, mul_one, mul_one] at key
          linarith
      · intro p hp
        rcases List.mem_cons.mp hp with he | hm
        · exact ⟨a, b, le_refl a, hadx, le_refl b, hbdy, he⟩
        · obtain ⟨a2, b2, h1, h2, h3, h4, h5⟩ := hl'mem p hm
          exact ⟨a2, b2, by omega, h2, by omega, h4, h5⟩

/-- Claim C5: for every pair of integer endpoints, the Bresenham loop of
`drawStraightLine` terminates (the fuelled model returns `some`), plots
both endpoints (first and last), plots every pixel exactly once (`Nodup`),
moves at most one unit per axis between consecutive plotted pixels with no
gaps, independent of slope sign or steepness (the endpoints are arbitrary),
and stays inside the bounding rectangle of the endpoints. -/
theorem claim5_straight_line (x1 y1 x2 y2 : Int) :
    ∃ l, drawStraightLinePoints x1 y1 x2 y2 = some l ∧
      l.head? = some (x1, y1) ∧
      l.getLast? = some (x2, y2) ∧
      l.Nodup ∧
      List.Chain' (fun p q : Int × Int =>
        (q.1 - p.1).natAbs ≤ 1 ∧ (q.2 - p.2).natAbs ≤ 1 ∧ p ≠ q) l ∧
      (∀ p ∈ l, min x1 x2 ≤ p.1 ∧ p.1 ≤ max x1 x2 ∧ min y1 y2 ≤ p.2 ∧ p.2 ≤ max y1 y2) := by
  have hdx : 0 ≤ goAbs (x2 - x1) := by unfold goAbs; split_ifs <;> omega
  have hdy : 0 ≤ goAbs (y2 - y1) := by unfold goAbs; split_ifs <;> omega
  have hsx : (if x1 < x2 then (1 : Int) else -1) = 1 ∨
      (if x1 < x2 then (1 : Int) else -1) = -1 := by
    split_ifs <;> simp
  have hsy : (if y1 < y2 then (1 : Int) else -1) = 1 ∨
      (if y1 < y2 then (1 : Int) else -1) = -1 := by
    split_ifs <;> simp
  have hx2 : x2 = x1 + goAbs (x2 - x1) * (if x1 < x2 then (1 : Int) else -1) := by
    unfold goAbs
    split_ifs <;> omega
  have hy2 : y2 = y1 + goAbs (y2 - y1) * (if y1 < y2 then (1 : Int) else -1) := by
    unfold goAbs
    split_ifs <;> omega
  obtain ⟨l, heq, hhead, hlast, hchain, hmem⟩ :=
    bresLoop_run (goAbs (x2 - x1)) (goAbs (y2 - y1))
      (if x1 < x2 then (1 : Int) else -1) (if y1 < y2 then (1 : Int) else -1) x1 y1
      hdx hdy hsx hsy ((goAbs (x2 - x1) + goAbs (y2 - y1)).toNat) 0 0
      le_rfl hdx le_rfl hdy (by omega)
  rw [show x1 + 0 * (if x1 < x2 then (1 : Int) else -1) = x1 by ring,
    show y1 + 0 * (if y1 < y2 then (1 : Int) else -1) = y1 by ring,
    show goAbs (x2 - x1) - goAbs (y2 - y1) - 0 * goAbs (y2 - y1) + 0 * goAbs (x2 - x1) =
      goAbs (x2 - x1) - goAbs (y2 - y1) by ring, ← hx2, ← hy2] at heq
  rw [show x1 + 0 * (if x1 < x2 then (1 : Int) else -1) = x1 by ring,
    show y1 + 0 * (if y1 < y2 then (1 : Int) else -1) = y1 by ring] at hhead
  rw [← hx2, ← hy2] at hlast
  refine ⟨l, ?_, hhead, hlast, ?_, ?_, ?_⟩
  · show bresLoop (goAbs (x2 - x1)) (goAbs (y2 - y1))
        (if x1 < x2 then (1 : Int) else -1) (if y1 < y2 then (1 : Int) else -1) x2 y2
        ((goAbs (x2 - x1) + goAbs (y2 - y1) + 1).toNat) x1 y1
        (goAbs (x2 - x1) - goAbs (y2 - y1)) = some l
    rw [show (goAbs (x2 - x1) + goAbs (y2 - y1) + 1).toNat =
      (goAbs (x2 - x1) + goAbs (y2 - y1)).toNat + 1 by omega]
    exact heq
  · haveI : IsTrans (Int × Int) (fun p q : Int × Int =>
        (if x1 < x2 then (1 : Int) else -1) * p.1 + (if y1 < y2 then (1 : Int) else -1) * p.2 <
        (if x1 < x2 then (1 : Int) else -1) * q.1 + (if y1 < y2 then (1 : Int) else -1) * q.2) :=
      ⟨fun a b c h1 h2 => lt_trans h1 h2⟩
    have hchain2 := List.Chain'.imp (fun p q hr => hr.2.2) hchain
    have hp := List.chain'_iff_pairwise.mp hchain2
    exact hp.imp fun hlt he => by subst he; exact lt_irrefl _ hlt
  · exact List.Chain'.imp
      (fun p q hr => ⟨hr.1, hr.2.1, fun he => by subst he; exact lt_irrefl _ hr.2.2⟩) hchain
  · intro p hp
    obtain ⟨a2, b2, ha1, ha2, hb1, hb2, hpe⟩ := hmem p hp
    subst hpe
    dsimp only
    refine ⟨?_, ?_, ?_, ?_⟩
    · by_cases hxlt : x1 < x2
      · rw [if_pos hxlt] at hx2 ⊢
        omega
      · rw [if_neg hxlt] at hx2 ⊢
        omega
    · by_cases hxlt : x1 < x2
      · rw [if_pos hxlt] at hx2 ⊢
        omega
      · rw [if_neg hxlt] at hx2 ⊢
        omega
    · by_cases hylt : y1 < y2
      · rw [if_pos hylt] at hy2 ⊢
        omega
      · rw [if_neg hylt] at hy2 ⊢
        omega
    · by_cases hylt : y1 < y2
      · rw [if_pos hylt] at hy2 ⊢
        omega
      · rw [if_neg hylt] at hy2 ⊢
        omega

/-- A fold whose body is guarded by a predicate on the element alone equals
the fold over the filtered list. -/
theorem foldl_guard_filter {α β : Type} (p : α → Prop) [DecidablePred p]
    (f : β → α → β) (l : List α) : ∀ acc : β,
    l.foldl (fun acc x => if p x then f acc x else acc) acc =
      (l.filter fun x => p x).foldl f acc := by
  induction l with
  | nil => intro acc; rfl
  | cons x tl ih =>
    intro acc
    simp only [List.foldl_cons, List.filter_cons]
    by_cases hp : p x
    · rw [if_pos hp, if_pos (show decide (p x) = true by simp [hp])]
      exact ih (f acc x)
    · rw [if_neg hp, if_neg (show ¬ decide (p x) = true by simp [hp])]
      exact ih acc

set_option maxRecDepth 4096 in
/-- Claim C7: `drawCurveLine` computes exactly 120 samples at `t = step/120`
for `step = 0..119`, each by the double-lerp construction (and this
construction differs from the closed-form quadratic Bézier — shown at a
concrete input); a pixel is set only when the sample lies inside
`[0,w) × [0,h)`, out-of-bounds samples being skipped silently, so the
image effect is exactly the fold of pixel-writes over the in-bounds
samples. -/
theorem claim7_curve_line (x1 y1 x2 y2 ctrlX ctrlY : Int) (fg : RGBA)
    (cx1 cy1 cx2 cy2 ccx ccy rd gd bd : Nat) (img : Img) :
    (drawCurveSamples x1 y1 x2 y2 ctrlX ctrlY).length = 120 ∧
    (∀ step, step < 120 →
      (drawCurveSamples x1 y1 x2 y2 ctrlX ctrlY)[step]? =
        some (curveSampleSpec x1 y1 x2 y2 ctrlX ctrlY step)) ∧
    curveSampleSpec 0 0 0 0 120 120 60 ≠ bezierSample 0 0 0 0 120 120 60 ∧
    drawCurveLineImg fg cx1 cy1 cx2 cy2 ccx ccy rd gd bd img =
      ((drawCurveSamples (cx1 : Int) (cy1 : Int) (cx2 : Int) (cy2 : Int) (ccx : Int)
          (ccy : Int)).filter fun p =>
            0 ≤ p.1 ∧ p.1 < (img.w : Int) ∧ 0 ≤ p.2 ∧ p.2 < (img.h : Int)).foldl
        (fun im p => imgSet im p.1 p.2 (randomNearColor fg rd gd bd)) img := by
  refine ⟨?_, ?_, ?_, ?_⟩
  · unfold drawCurveSamples
    rw [List.length_map, List.length_range]
  · intro step hstep
    simp only [drawCurveSamples, List.getElem?_map, List.getElem?_range, hstep, if_true,
      Option.map_some']
    rfl
  · have h1 : curveSampleSpec 0 0 0 0 120 120 60 = (30, 30) := by
      unfold curveSampleSpec lerp ratTrunc
      norm_num
    have h2 : bezierSample 0 0 0 0 120 120 60 = (60, 60) := by
      unfold bezierSample ratTrunc
      norm_num
    rw [h1, h2]
    decide
  · unfold drawCurveLineImg
    exact foldl_guard_filter
      (fun p : Int × Int => 0 ≤ p.1 ∧ p.1 < (img.w : Int) ∧ 0 ≤ p.2 ∧ p.2 < (img.h : Int))
      (fun im p => imgSet im p.1 p.2 (randomNearColor fg rd gd bd)) _ img

/-- Claim C2 counterexample: with `minLines = 0`, `maxLines = 1` the count
draw is `rand.IntN(1)`, whose only value is `0`, so the count is always
`0`: `maxLines` itself is not a possible count, refuting the claimed
inclusive range. -/
theorem claim2_counterexample :
    ¬ ∃ u : Nat, u < 1 - 0 ∧ drawLinesLineCnt 0 1 u = 1 := by
  rintro ⟨u, hu, he⟩
  have hu0 : u = 0 := by omega
  subst hu0
  simp [drawLinesLineCnt] at he

/-- Claim C2 as amended: when `minLines == maxLines == 0` the image is
returned unchanged with no lines drawn; when `minLines == maxLines` the
count equals that common value; when `minLines < maxLines` the count is
`rand.IntN(maxLines-minLines) + minLines`, which ranges uniformly over the
half-open range `[minLines, maxLines-1]` (each value hit by exactly one
draw) — `maxLines` itself is never produced; and outside the degenerate
zero case the image effect is the fold of `drawLinesLineCnt` line-drawing
iterations. -/
theorem claim2_amended_draw_lines (minLines maxLines cntDraw : Nat)
    (draws : Nat → LineDraws) (fg : RGBA) (img : Img) :
    (minLines = maxLines → minLines = 0 →
      drawLines minLines maxLines cntDraw draws fg img = img) ∧
    (minLines = maxLines → drawLinesLineCnt minLines maxLines cntDraw = minLines) ∧
    (minLines < maxLines → cntDraw < maxLines - minLines →
      minLines ≤ drawLinesLineCnt minLines maxLines cntDraw ∧
        drawLinesLineCnt minLines maxLines cntDraw < maxLines) ∧
    (minLines < maxLines → ∀ k : Nat, (minLines ≤ k ∧ k < maxLines) ↔
      ∃! u, u < maxLines - minLines ∧ drawLinesLineCnt minLines maxLines u = k) ∧
    (¬(minLines = maxLines ∧ minLines = 0) →
      drawLines minLines maxLines cntDraw draws fg img =
        (List.range (drawLinesLineCnt minLines maxLines cntDraw)).foldl
          (fun im i =>
            let d := draws i
            if d.coin < 1/2 then
              drawStraightLineImg fg d.x1 d.y1 d.x2 d.y2 d.rd d.gd d.bd im
            else
              drawCurveLineImg fg d.x1 d.y1 d.x2 d.y2 d.ctrlX d.ctrlY d.rd d.gd d.bd im)
          img) := by
  refine ⟨?_, ?_, ?_, ?_, ?_⟩
  · intro h1 h2
    unfold drawLines
    rw [if_pos ⟨h1, h2⟩]
  · intro h1
    unfold drawLinesLineCnt
    rw [if_pos h1]
  · intro h1 h2
    unfold drawLinesLineCnt
    rw [if_neg (by omega)]
    omega
  · intro h1 k
    constructor
    · rintro ⟨hk1, hk2⟩
      refine ⟨k - minLines, ⟨by omega, ?_⟩, ?_⟩
      · unfold drawLinesLineCnt
        rw [if_neg (by omega)]
        omega
      · rintro y ⟨hy1, hy2⟩
        unfold drawLinesLineCnt at hy2
        rw [if_neg (by omega)] at hy2
        omega
    · rintro ⟨u, ⟨hu1, hu2⟩, _⟩
      unfold drawLinesLineCnt at hu2
      rw [if_neg (by omega)] at hu2
      omega
  · intro h1
    unfold drawLines
    rw [if_neg h1]

/-- Witness for the amended C2 at a concrete configuration with
`minLines = 1`, `maxLines = 3`, count draw `1`. -/
theorem claim2_amended_draw_lines_witness :
    ((1 : Nat) = 3 → (1 : Nat) = 0 →
      drawLines 1 3 1 (fun _ => ⟨0, 0, 0, 0, 0, 0, 0, 0, 0, 0⟩) transparent transparentImg2 =
        transparentImg2) ∧
    ((1 : Nat) = 3 → drawLinesLineCnt 1 3 1 = 1) ∧
    ((1 : Nat) < 3 → (1 : Nat) < 3 - 1 →
      1 ≤ drawLinesLineCnt 1 3 1 ∧ drawLinesLineCnt 1 3 1 < 3) ∧
    ((1 : Nat) < 3 → ∀ k : Nat, (1 ≤ k ∧ k < 3) ↔
      ∃! u, u < 3 - 1 ∧ drawLinesLineCnt 1 3 u = k) ∧
    (¬((1 : Nat) = 3 ∧ (1 : Nat) = 0) →
      drawLines 1 3 1 (fun _ => ⟨0, 0, 0, 0, 0, 0, 0, 0, 0, 0⟩) transparent transparentImg2 =
        (List.range (drawLinesLineCnt 1 3 1)).foldl
          (fun im i =>
            let d := (fun _ : Nat => (⟨0, 0, 0, 0, 0, 0, 0, 0, 0, 0⟩ : LineDraws)) i
            if d.coin < 1/2 then
              drawStraightLineImg transparent d.x1 d.y1 d.x2 d.y2 d.rd d.gd d.bd im
            else
              drawCurveLineImg transparent d.x1 d.y1 d.x2 d.y2 d.ctrlX d.ctrlY d.rd d.gd d.bd
                im)
          transparentImg2) :=
  claim2_amended_draw_lines 1 3 1 (fun _ => ⟨0, 0, 0, 0, 0, 0, 0, 0, 0, 0⟩) transparent
    transparentImg2

/-- Claim C6 counterexample: with amplitude `1.9` on an 8×8 canvas, at
destination pixel `(0, 1)` the code samples the source at the truncated
offsets `(0+1, 1+1) = (1, 2)`, while the claim's rounded offsets give
`(0+2, 1+2) = (2, 3)`; on a canvas storing its own coordinates these two
source pixels differ, so the code's pixel is not the claim's pixel. -/
theorem claim6_counterexample :
    (distortWarp ((19 : ℝ) / 10) coordImg8).pix 0 1 = ⟨1, 2, 0, 255⟩ ∧
    (distortWarpRound ((19 : ℝ) / 10) coordImg8).pix 0 1 = ⟨2, 3, 0, 255⟩ ∧
    (distortWarp ((19 : ℝ) / 10) coordImg8).pix 0 1 ≠
      (distortWarpRound ((19 : ℝ) / 10) coordImg8).pix 0 1 := by
  have hsin2 : Real.sin (2 * Real.pi / 4) = 1 := by
    rw [show 2 * Real.pi / 4 = Real.pi / 2 by ring, Real.sin_pi_div_two]
  have htr2 : realTrunc ((19 : ℝ) / 10) = 1 := by
    unfold realTrunc
    rw [if_pos (by norm_num)]
    norm_num [Int.floor_eq_iff]
  have hro2 : round ((19 : ℝ) / 10) = 2 := by
    rw [round_eq]
    norm_num [Int.floor_eq_iff]
  have h1 : (distortWarp ((19 : ℝ) / 10) coordImg8).pix 0 1 = ⟨1, 2, 0, 255⟩ := by
    simp only [distortWarp, coordImg8]
    norm_num
    rw [hsin2, show (19 : ℝ) / 10 * 1 = 19 / 10 by ring, htr2]
    norm_num
    decide
  have h2 : (distortWarpRound ((19 : ℝ) / 10) coordImg8).pix 0 1 = ⟨2, 3, 0, 255⟩ := by
    simp only [distortWarpRound, coordImg8]
    norm_num
    rw [hsin2, show (19 : ℝ) / 10 * 1 = 19 / 10 by ring, hro2]
    norm_num
    exact ⟨by decide, by decide⟩
  refine ⟨h1, h2, ?_⟩
  rw [h1, h2]
  decide

/-- Claim C6 as amended: for any amplitude, `distortChar`'s warp produces a
destination with the source's dimensions where each in-range destination
pixel `(x,y)` equals the source pixel at
`(x + trunc(a*sin(2πy/(h/2))), y + trunc(a*cos(2πx/(h/2))))` — offsets
converted with Go's truncation toward zero, not rounding — whenever that
coordinate is in bounds, and is left fully transparent otherwise. -/
theorem claim6_amended_distort (a : ℝ) (src : Img) (x y : Nat)
    (hx : x < src.w) (hy : y < src.h) :
    (distortWarp a src).w = src.w ∧
    (distortWarp a src).h = src.h ∧
    ((0 ≤ (x : Int) + realTrunc (a * Real.sin (2 * Real.pi * (y : ℝ) / ((src.h : ℝ) / 2))) ∧
        (x : Int) + realTrunc (a * Real.sin (2 * Real.pi * (y : ℝ) / ((src.h : ℝ) / 2))) <
          (src.w : Int) ∧
        0 ≤ (y : Int) + realTrunc (a * Real.cos (2 * Real.pi * (x : ℝ) / ((src.h : ℝ) / 2))) ∧
        (y : Int) + realTrunc (a * Real.cos (2 * Real.pi * (x : ℝ) / ((src.h : ℝ) / 2))) <
          (src.h : Int)) →
      (distortWarp a src).pix x y =
        src.pix
          ((x : Int) + realTrunc (a * Real.sin (2 * Real.pi * (y : ℝ) / ((src.h : ℝ) / 2)))).toNat
          ((y : Int) +
            realTrunc (a * Real.cos (2 * Real.pi * (x : ℝ) / ((src.h : ℝ) / 2)))).toNat) ∧
    (¬(0 ≤ (x : Int) + realTrunc (a * Real.sin (2 * Real.pi * (y : ℝ) / ((src.h : ℝ) / 2))) ∧
        (x : Int) + realTrunc (a * Real.sin (2 * Real.pi * (y : ℝ) / ((src.h : ℝ) / 2))) <
          (src.w : Int) ∧
        0 ≤ (y : Int) + realTrunc (a * Real.cos (2 * Real.pi * (x : ℝ) / ((src.h : ℝ) / 2))) ∧
        (y : Int) + realTrunc (a * Real.cos (2 * Real.pi * (x : ℝ) / ((src.h : ℝ) / 2))) <
          (src.h : Int)) →
      (distortWarp a src).pix x y = transparent) := by
  refine ⟨rfl, rfl, ?_, ?_⟩
  · intro h
    simp only [distortWarp]
    rw [if_pos ⟨hx, hy⟩]
    rw [if_pos h]
  · intro h
    simp only [distortWarp]
    rw [if_pos ⟨hx, hy⟩]
    rw [if_neg h]

/-- Witness for the amended C6 at amplitude `0` on the concrete canvas
`coordImg8` at pixel `(2, 3)`. -/
theorem claim6_amended_distort_witness :
    (distortWarp (0 : ℝ) coordImg8).w = coordImg8.w ∧
    (distortWarp (0 : ℝ) coordImg8).h = coordImg8.h ∧
    ((0 ≤ ((2 : Nat) : Int) + realTrunc ((0 : ℝ) * Real.sin (2 * Real.pi * ((3 : Nat) : ℝ) / ((coordImg8.h : ℝ) / 2))) ∧
        ((2 : Nat) : Int) + realTrunc ((0 : ℝ) * Real.sin (2 * Real.pi * ((3 : Nat) : ℝ) / ((coordImg8.h : ℝ) / 2))) <
          (coordImg8.w : Int) ∧
        0 ≤ ((3 : Nat) : Int) + realTrunc ((0 : ℝ) * Real.cos (2 * Real.pi * ((2 : Nat) : ℝ) / ((coordImg8.h : ℝ) / 2))) ∧
        ((3 : Nat) : Int) + realTrunc ((0 : ℝ) * Real.cos (2 * Real.pi * ((2 : Nat) : ℝ) / ((coordImg8.h : ℝ) / 2))) <
          (coordImg8.h : Int)) →
      (distortWarp (0 : ℝ) coordImg8).pix (2 : Nat) (3 : Nat) =
        coordImg8.pix
          (((2 : Nat) : Int) + realTrunc ((0 : ℝ) * Real.sin (2 * Real.pi * ((3 : Nat) : ℝ) / ((coordImg8.h : ℝ) / 2)))).toNat
          (((3 : Nat) : Int) +
            realTrunc ((0 : ℝ) * Real.cos (2 * Real.pi * ((2 : Nat) : ℝ) / ((coordImg8.h : ℝ) / 2)))).toNat) ∧
    (¬(0 ≤ ((2 : Nat) : Int) + realTrunc ((0 : ℝ) * Real.sin (2 * Real.pi * ((3 : Nat) : ℝ) / ((coordImg8.h : ℝ) / 2))) ∧
        ((2 : Nat) : Int) + realTrunc ((0 : ℝ) * Real.sin (2 * Real.pi * ((3 : Nat) : ℝ) / ((coordImg8.h : ℝ) / 2))) <
          (coordImg8.w : Int) ∧
        0 ≤ ((3 : Nat) : Int) + realTrunc ((0 : ℝ) * Real.cos (2 * Real.pi * ((2 : Nat) : ℝ) / ((coordImg8.h : ℝ) / 2))) ∧
        ((3 : Nat) : Int) + realTrunc ((0 : ℝ) * Real.cos (2 * Real.pi * ((2 : Nat) : ℝ) / ((coordImg8.h : ℝ) / 2))) <
          (coordImg8.h : Int)) →
      (distortWarp (0 : ℝ) coordImg8).pix (2 : Nat) (3 : Nat) = transparent) :=
  claim6_amended_distort 0 coordImg8 2 3 (by decide) (by decide)

/-- Claim C8: with all three transform ranges degenerate at their neutral
values (`rotation = [0,0]`, `scale = [1,1]`, `distortion = [0,0]`), each of
`scaleChar`, `distortChar` and `rotateChar` returns its input canvas
unchanged, deterministically — whatever the random draws and whatever the
external resampler would do, no resampling is invoked. -/
theorem claim8_identity_transforms (minScale maxScale minDistortion maxDistortion
    minRotation maxRotation : ℚ) (uX uY : ℚ) (uD uR : ℝ)
    (catmullRomScale : Nat → Nat → Img → Img)
    (catmullRomTransform : Nat → Nat → ℝ × ℝ × ℝ × ℝ × ℝ × ℝ → Img → Img)
    (src : Img)
    (hs1 : minScale = maxScale) (hs2 : minScale = 1)
    (hd1 : minDistortion = maxDistortion) (hd2 : minDistortion = 0)
    (hr1 : minRotation = maxRotation) (hr2 : minRotation = 0) :
    scaleChar minScale maxScale uX uY catmullRomScale src = src ∧
    distortChar minDistortion maxDistortion uD src = src ∧
    rotateChar minRotation maxRotation uR catmullRomTransform src = src := by
  subst hs1 hs2 hd1 hd2 hr1 hr2
  refine ⟨?_, ?_, ?_⟩
  · simp [scaleChar]
  · simp [distortChar]
  · simp [rotateChar]

/-- Witness for C8 at the neutral configuration on the concrete canvas
`coordImg8`, with identity oracles in place of the external resamplers. -/
theorem claim8_identity_transforms_witness :
    scaleChar 1 1 0 0 (fun _ _ im => im) coordImg8 = coordImg8 ∧
    distortChar 0 0 0 coordImg8 = coordImg8 ∧
    rotateChar 0 0 0 (fun _ _ _ im => im) coordImg8 = coordImg8 :=
  claim8_identity_transforms 1 1 0 0 0 0 0 0 0 0 (fun _ _ im => im) (fun _ _ _ im => im)
    coordImg8 rfl rfl rfl rfl rfl rfl

/-- Witness for C9 at the concrete valid configuration `cValid` with a
font-loading oracle that succeeds. -/
theorem claim9_new_validation_witness :
    (validateErr cValid ≠ none ↔ invalidParamsClaim cValid) ∧
    (validateErr cValid = none →
      NewGo (fun _ _ => Except.ok ()) cValid = Except.ok cValid ∨
      ∃ e, NewGo (fun _ _ => Except.ok ()) cValid = Except.error e ∧
        (fun _ _ => (Except.ok () : Except String Unit)) cValid.fontPath cValid.fontSize =
          Except.error e) :=
  claim9_new_validation (fun _ _ => Except.ok ()) cValid

end CaptchaGo
